import Mathlib

/-!
Verification of the ChristmasCard repository's client-side scripts.

The repository consists of small browser scripts that call a remote
generative-AI HTTP API.  The pieces with actual behaviour are:

* `callVeniceAPI` (src/unnamed/part_000, lines 412-463): a retry/backoff
  wrapper around `fetch`;
* `streamChatCompletion` (part_000, lines 519-567): a line-oriented SSE
  streaming decoder with a carry-over buffer;
* the inline `generateResponse` decoder (part_000, lines 1254-1296): a
  second streaming decoder without a carry-over buffer;
* `VeniceConversation` (part_000, lines 1499-1545): a bounded message log;
* `generateStylizedImage` (part_000, lines 1801-1846 and src/script.js,
  lines 75-97): the image pipeline's response-shape normalization and
  input data-URI stripping.

Each JavaScript function is embedded shallowly: wire strings are
`List Char`, `fetch` results and the `JSON.parse` of stream payloads are
explicit parameters, and JavaScript quirks (falsiness of the empty
string, `Array.prototype.slice` with a negative index, `throw` inside
`try` being caught by the function's own `catch`) are modelled exactly
as they execute.
-/

/-! ### Retry/backoff controller: `callVeniceAPI` (part_000 lines 412-463) -/

/-- One `fetch` outcome as seen by `callVeniceAPI`: a 2xx response with a
JSON body, a non-ok HTTP response (with the optional
`x-ratelimit-reset-requests` header value and the parsed
`error.error.message`), or a network-level failure (the `fetch` promise
rejects). -/
inductive Resp
  | ok (body : String)
  | httpErr (status : Nat) (resetHint : Option Nat) (msg : String)
  | netErr (msg : String)
deriving DecidableEq

/-- The `Error` values `callVeniceAPI` can throw. -/
inductive VeniceError
  | authError
  | apiError (status : Nat) (msg : String)
  | networkError (msg : String)
deriving DecidableEq

/-- How one call to `callVeniceAPI` ends: a normal return of the parsed
body, a thrown error, or a normal return of `undefined` (the `while` loop
exits without returning). -/
inductive CallResult
  | success (body : String)
  | thrown (e : VeniceError)
  | returnedUndefined
deriving DecidableEq

/-- Observable outcome of one run of `callVeniceAPI`: the number of
`fetch` attempts performed, the `setTimeout` delays awaited (in ms, in
order), and the final result. -/
structure RunOutcome where
  attempts : Nat
  waits : List Nat
  result : CallResult
deriving DecidableEq

/-- part_000 lines 438-439: the wait chosen for a 429 response at
`retryCount`.  The `x-ratelimit-reset-requests` header is read into
`resetTime` on line 438 but never used; the wait is
`Math.min(Math.pow(2, retryCount) * 1000, 60000)`. -/
def rateLimitWait (retryCount : Nat) (resetHint : Option Nat) : Nat :=
  min (2 ^ retryCount * 1000) 60000

/-- The `while (retryCount < maxRetries)` loop of `callVeniceAPI`
(part_000 lines 416-462).  `r` is `retryCount` and `fuel` is
`maxRetries - retryCount`, so the loop guard failing is `fuel = 0`.
Each iteration performs one `fetch`, whose outcome is `resps r`:

* `response.ok`: return `await response.json()`;
* status 429: wait `rateLimitWait`, `retryCount++`, `continue`;
* status 401: `throw new Error('Invalid API key...')` — the throw happens
  inside the `try`, so it is caught by the function's own `catch`, which
  rethrows only when `retryCount === maxRetries - 1` and otherwise does
  `retryCount++` and waits `1000 * retryCount`;
* any other non-ok status: `throw new Error('API Error ...')`, caught the
  same way;
* network failure: the `catch` path directly. -/
def callLoop (resps : Nat → Resp) (maxRetries : Nat) : Nat → Nat → RunOutcome
  | 0, r => ⟨r, [], .returnedUndefined⟩
  | fuel + 1, r =>
    match resps r with
    | .ok body => ⟨r + 1, [], .success body⟩
    | .httpErr status hint msg =>
      if status = 429 then
        let o := callLoop resps maxRetries fuel (r + 1)
        ⟨o.attempts, rateLimitWait r hint :: o.waits, o.result⟩
      else
        let e := if status = 401 then VeniceError.authError else .apiError status msg
        if r = maxRetries - 1 then ⟨r + 1, [], .thrown e⟩
        else
          let o := callLoop resps maxRetries fuel (r + 1)
          ⟨o.attempts, 1000 * (r + 1) :: o.waits, o.result⟩
    | .netErr msg =>
      if r = maxRetries - 1 then ⟨r + 1, [], .thrown (.networkError msg)⟩
      else
        let o := callLoop resps maxRetries fuel (r + 1)
        ⟨o.attempts, 1000 * (r + 1) :: o.waits, o.result⟩

/-- `callVeniceAPI` with its fixed policy `const maxRetries = 3`
(part_000 line 413), started at `retryCount = 0`. -/
def callVeniceAPI (resps : Nat → Resp) : RunOutcome :=
  callLoop resps 3 3 0

/-! ### JavaScript string primitives used by the decoders -/

/-- The ASCII characters `String.prototype.trim` removes (the scripts'
lines contain no exotic Unicode space). -/
def isJsWS (c : Char) : Bool :=
  c = ' ' || c = '\t' || c = '\n' || c = '\r' || c = '\x0b' || c = '\x0c'

/-- JavaScript `s.trim()`. -/
def jsTrim (l : List Char) : List Char :=
  ((l.dropWhile isJsWS).reverse.dropWhile isJsWS).reverse

/-- JavaScript `s.split(sep)` for a one-character separator: never
returns an empty array; `''.split(sep) = ['']`. -/
def jsSplit (sep : Char) : List Char → List (List Char)
  | [] => [[]]
  | x :: xs =>
    match jsSplit sep xs with
    | [] => [[x]]
    | r :: rs => if x = sep then [] :: r :: rs else (x :: r) :: rs

/-- JavaScript `s.replace(pat, rep)` with a string pattern: replaces
only the first occurrence (an empty pattern matches at position 0). -/
def replaceFirstOccur (pat rep : List Char) : List Char → List Char
  | [] => if pat = [] then rep else []
  | x :: xs =>
    if pat.isPrefixOf (x :: xs) then rep ++ (x :: xs).drop pat.length
    else x :: replaceFirstOccur pat rep xs

/-- The characters of `'data: '`, the SSE frame marker. -/
def dataTag : List Char := ['d', 'a', 't', 'a', ':', ' ']

/-- The characters of `'[DONE]'`, the stream terminator sentinel. -/
def doneTok : List Char := ['[', 'D', 'O', 'N', 'E', ']']

/-- The external `JSON.parse` plus `parsed.choices[0]?.delta?.content`
evaluation on one frame payload, supplied as an oracle: `none` models
`JSON.parse` throwing, `some none` a parsed object whose optional chain
yields `undefined`, `some (some c)` a content string `c`. -/
abbrev FrameParse := List Char → Option (Option String)

/-! ### Streaming decoder: `streamChatCompletion` (part_000 lines 519-567) -/

/-- Lines 546-562, the body of `for (const line of lines)`: skip blank
or non-`data: ` lines, return on `[DONE]`, otherwise parse the payload
(`line.slice(6)`), discard it on a parse error and emit
`parsed.choices[0]?.delta?.content` through `onChunk` when it is truthy.
Returns the deltas emitted for this line and whether `[DONE]` caused
`onComplete(); return`. -/
def sccLine (parse : FrameParse) (line : List Char) : List String × Bool :=
  if jsTrim line = [] then ([], false)
  else if ¬ dataTag.isPrefixOf line then ([], false)
  else
    let data := line.drop 6
    if data = doneTok then ([], true)
    else
      match parse data with
      | none => ([], false)
      | some none => ([], false)
      | some (some content) => (if content = "" then [] else [content], false)

/-- The loop over the complete lines of one chunk: processing stops at
the first `[DONE]` line because the whole function returns there. -/
def sccLines (parse : FrameParse) : List (List Char) → List String × Bool
  | [] => ([], false)
  | l :: ls =>
    match sccLine parse l with
    | (es, true) => (es, true)
    | (es, false) =>
      let rest := sccLines parse ls
      (es ++ rest.1, rest.2)

/-- Decoder state: still reading, with the carry-over `buffer`, or
returned (after `[DONE]` the function has exited and no further chunk
is read). -/
inductive SccState
  | streaming (buffer : List Char)
  | done
deriving DecidableEq

/-- Lines 538-563, one `while (true)` iteration on a chunk `value`:
`buffer += decoder.decode(value, { stream: true });` then
`const lines = buffer.split('\n'); buffer = lines.pop() || '';` — the
trailing element of the split, the only possibly incomplete line, goes
back into the buffer — then the line loop. -/
def sccChunk (parse : FrameParse) : SccState → List Char → SccState × List String
  | .done, _ => (.done, [])
  | .streaming buffer, chunk =>
    let lines := jsSplit '\n' (buffer ++ chunk)
    let out := sccLines parse lines.dropLast
    if out.2 then (.done, out.1) else (.streaming (lines.getLastD []), out.1)

/-- A whole streaming response: the chunks delivered by `reader.read()`,
in order, starting from the given state. -/
def sccRun (parse : FrameParse) : SccState → List (List Char) → SccState × List String
  | st, [] => (st, [])
  | st, chunk :: chunks =>
    let step := sccChunk parse st chunk
    let rest := sccRun parse step.1 chunks
    (rest.1, step.2 ++ rest.2)

/-- `streamChatCompletion`, observed as the emitted deltas and final
state: fresh run with an empty buffer. -/
def streamChatCompletion (parse : FrameParse) (chunks : List (List Char)) :
    SccState × List String :=
  sccRun parse (.streaming []) chunks

/-- The wire text of a well-formed frame sequence: each payload on its
own `data: ` line terminated by a newline. -/
def frameText (payloads : List (List Char)) : List Char :=
  (payloads.map fun p => dataTag ++ p ++ ['\n']).flatten

/-- What `streamChatCompletion` emits for one parsed payload:
nothing on a parse error or a falsy content, `[c]` otherwise. -/
def emitList : Option (Option String) → List String
  | some (some c) => if c = "" then [] else [c]
  | _ => []

/-- The content a payload contributes to the full assistant message. -/
def contentOf : Option (Option String) → String
  | some (some c) => c
  | _ => ""

/-! ### The inline `generateResponse` decoder (part_000 lines 1254-1296) -/

/-- State of the `generateResponse` stream loop: the accumulated
`responseDiv.textContent` and whether the status badge was set to
`'Complete'` (the `[DONE]` branch — which only `continue`s). -/
structure GenAcc where
  out : String
  sawDone : Bool
deriving DecidableEq

/-- Lines 1277-1289, the body of `for (const line of lines)` (the lines
already filtered): `const data = line.replace('data: ', '')`; on
`[DONE]` set the badge and `continue`; otherwise parse and append
`parsed.choices[0]?.delta?.content || ''` to the div (a parse error is
logged and appends nothing). -/
def genLineStep (parse : FrameParse) (acc : GenAcc) (line : List Char) : GenAcc :=
  let data := replaceFirstOccur dataTag [] line
  if data = doneTok then { acc with sawDone := true }
  else
    match parse data with
    | none => acc
    | some content => { acc with out := acc.out ++ content.getD "" }

/-- Lines 1274-1276: each chunk is decoded and split independently —
there is no carry-over buffer — and filtered by
`line.trim().startsWith('data: ')`. -/
def genChunk (parse : FrameParse) (acc : GenAcc) (chunk : List Char) : GenAcc :=
  ((jsSplit '\n' chunk).filter fun line => dataTag.isPrefixOf (jsTrim line)).foldl
    (genLineStep parse) acc

/-- The whole `generateResponse` read loop over the delivered chunks. -/
def generateResponse (parse : FrameParse) (chunks : List (List Char)) : GenAcc :=
  chunks.foldl (genChunk parse) ⟨"", false⟩

/-- A concrete payload oracle used in counterexamples and witnesses. -/
def demoParse : FrameParse := fun p =>
  if p = ['A'] then some (some "Hi")
  else if p = ['X', 'Y'] then some (some "Hello")
  else if p = ['H'] then some (some "He")
  else if p = ['L', 'L'] then some (some "llo")
  else none

/-! ### Conversation state: `VeniceConversation` (part_000 lines 1499-1545) -/

/-- A chat message `{ role, content }`. -/
structure ChatMessage where
  role : String
  content : String
deriving DecidableEq

/-- The `VeniceConversation` class state: `apiKey`, `model`, the message
list and `maxHistory`. -/
structure VeniceConversation where
  apiKey : String
  model : String
  messages : List ChatMessage
  maxHistory : Nat
deriving DecidableEq

/-- The constructor (lines 1500-1505): `messages = []`,
`maxHistory = 20`, `model` defaulting to `'venice-uncensored'`. -/
def mkVeniceConversation (apiKey : String)
    (model : String := "venice-uncensored") : VeniceConversation :=
  ⟨apiKey, model, [], 20⟩

/-- JavaScript `arr.slice(-n)` for a natural `n`: the last `n` elements,
except that `slice(-0)` is `slice(0)`, the whole array. -/
def jsSliceNeg (n : Nat) (l : List α) : List α :=
  if n = 0 then l else l.drop (l.length - n)

/-- `addMessage(role, content)` (lines 1507-1514): push, then if the
length exceeds `maxHistory`, replace the list with
`this.messages.slice(-this.maxHistory)`. -/
def VeniceConversation.addMessage (c : VeniceConversation)
    (role content : String) : VeniceConversation :=
  let ms := c.messages ++ [⟨role, content⟩]
  if ms.length > c.maxHistory then { c with messages := jsSliceNeg c.maxHistory ms }
  else { c with messages := ms }

/-- A sequence of `addMessage` calls, oldest first. -/
def applyAdds (c : VeniceConversation) (calls : List (String × String)) :
    VeniceConversation :=
  calls.foldl (fun c rc => c.addMessage rc.1 rc.2) c

/-- How one `send` resolves, as seen by the code (lines 1516-1535):
the `fetch` promise rejects, `response.json()` rejects, or the body
parses and `data.choices[0].message.content` is either reachable
(`some`) or an access on `undefined` that throws a TypeError (`none`).
`send` never inspects `response.ok`, so a non-2xx response is just a
body whose shape usually makes the extraction throw. -/
inductive FetchOutcome
  | fetchRejects (msg : String)
  | jsonRejects
  | body (choices0content : Option String)
deriving DecidableEq

/-- The error with which `send` rejects. -/
inductive SendError
  | network (msg : String)
  | jsonParse
  | typeError
deriving DecidableEq

/-- `send(userMessage, options)` (lines 1516-1535): append the user
message first, then fetch; on success extract
`data.choices[0].message.content`, append it as an assistant message and
return it.  Any failure propagates after the user message was already
appended. -/
def VeniceConversation.send (c : VeniceConversation) (userMessage : String)
    (out : FetchOutcome) : VeniceConversation × Except SendError String :=
  let c1 := c.addMessage "user" userMessage
  match out with
  | .fetchRejects m => (c1, .error (.network m))
  | .jsonRejects => (c1, .error .jsonParse)
  | .body none => (c1, .error .typeError)
  | .body (some content) => (c1.addMessage "assistant" content, .ok content)

/-- The last `n` elements of a list (what `slice(-n)` computes for
`n ≥ 1`). -/
def takeLast (n : Nat) (l : List α) : List α :=
  l.drop (l.length - n)

/-! ### Image pipeline: `generateStylizedImage` -/

/-- JavaScript truthiness of a string-or-undefined value: `undefined`
and `''` are falsy. -/
def jsTruthy : Option String → Bool
  | some s => s != ""
  | none => false

/-- One element of the `data` array of an image response. -/
structure ImgDatum where
  url : Option String
  b64Json : Option String
deriving DecidableEq

/-- The JSON body of an image-edit response, with the fields the
part_000 variant inspects (absent field = `undefined`). -/
structure ImgJson where
  dataField : Option (List ImgDatum)
  url : Option String
  image : Option String
deriving DecidableEq

/-- A usable image reference as produced by part_000
`generateStylizedImage`: an object URL made from a binary blob, a remote
URL, or a `data:image/png;base64,…` URI built from inline bytes. -/
inductive ImageRef
  | objectUrl
  | remoteUrl (u : String)
  | dataUri (b64 : String)
deriving DecidableEq

/-- The errors the image normalization can throw. -/
inductive ImgError
  | apiError (status : Nat) (body : String)
  | typeError
  | unrecognizedShape (payload : ImgJson)
deriving DecidableEq

/-- `contentType && contentType.includes('image')`. -/
def ctIncludesImage : Option String → Bool
  | some ct => decide ("image".toList <:+: ct.toList)
  | none => false

/-- part_000 lines 1826-1844: binary content-type first, then
`data.data[0].url`, `data.data[0].b64_json`, `data.url`, `data.image`,
in that order; if none matches, log the raw payload and throw
`Error("Could not parse image URL from response")`.  An empty `data`
array makes `data.data[0].url` a property access on `undefined`, a
TypeError. -/
def normalizeImageResponse (contentType : Option String) (data : ImgJson) :
    Except ImgError ImageRef :=
  if ctIncludesImage contentType then .ok .objectUrl
  else
    match data.dataField with
    | some [] => .error .typeError
    | some (d :: _) =>
      if jsTruthy d.url then .ok (.remoteUrl (d.url.getD ""))
      else if jsTruthy d.b64Json then .ok (.dataUri (d.b64Json.getD ""))
      else if jsTruthy data.url then .ok (.remoteUrl (data.url.getD ""))
      else if jsTruthy data.image then .ok (.dataUri (data.image.getD ""))
      else .error (.unrecognizedShape data)
    | none =>
      if jsTruthy data.url then .ok (.remoteUrl (data.url.getD ""))
      else if jsTruthy data.image then .ok (.dataUri (data.image.getD ""))
      else .error (.unrecognizedShape data)

/-- The response as seen by part_000 `generateStylizedImage` after the
POST: `response.ok`, the status and error text for the non-ok throw on
lines 1821-1824, the content-type header, and the JSON body. -/
structure ImgResponse where
  ok : Bool
  status : Nat
  errText : String
  contentType : Option String
  json : ImgJson
deriving DecidableEq

/-- part_000 `generateStylizedImage`, from the response on: throw on
non-ok, otherwise normalize the response shape. -/
def generateStylizedImage (resp : ImgResponse) : Except ImgError ImageRef :=
  if resp.ok then normalizeImageResponse resp.contentType resp.json
  else .error (.apiError resp.status resp.errText)

/-- One element of the `data`/`images` arrays of the script.js
variant. -/
structure ScriptImgDatum where
  url : Option String
deriving DecidableEq

/-- The JSON body fields the script.js variant inspects. -/
structure ScriptImgJson where
  url : Option String
  dataField : Option (List ScriptImgDatum)
  images : Option (List ScriptImgDatum)
deriving DecidableEq

/-- script.js line 96:
`return data.url || (data.data && data.data[0].url) || (data.images && data.images[0].url);`
— the value of the `||` chain, which is the last evaluated operand, so
an unrecognized shape yields `undefined` (`Except.ok none`), not an
error.  An empty `data`/`images` array again makes the `[0].url` access
throw a TypeError. -/
def scriptImageResult (data : ScriptImgJson) : Except ImgError (Option String) :=
  if jsTruthy data.url then .ok data.url
  else
    match data.dataField with
    | some [] => .error .typeError
    | some (d :: _) =>
      if jsTruthy d.url then .ok d.url
      else
        match data.images with
        | some [] => .error .typeError
        | some (i :: _) => .ok i.url
        | none => .ok none
    | none =>
      match data.images with
      | some [] => .error .typeError
      | some (i :: _) => .ok i.url
      | none => .ok none

/-! ### Input data-URI stripping in the two `generateStylizedImage` variants -/

/-- script.js line 76: `const base64Data = base64Image.split(',')[1];` —
`none` is JavaScript's `undefined`. -/
def scriptBase64Data (s : List Char) : Option (List Char) :=
  (jsSplit ',' s)[1]?

/-- part_000 line 1806:
`const base64Data = base64Image.split(',')[1] || base64Image;` — both
`undefined` (no second split component) and `''` (falsy) fall back to
the whole input. -/
def part000Base64Data (s : List Char) : List Char :=
  match (jsSplit ',' s)[1]? with
  | none => s
  | some t => if t = [] then s else t

/-! ## Theorems -/

/-! ### Retry/backoff controller claims -/

/-- C1: the claim states that a response sequence beginning with an HTTP
401 yields exactly 1 attempt and an Authentication error, the 401 never
being retried.  The code violates this: the auth `throw` on line 448 is
inside the `try`, so the `catch` on line 456 swallows it and retries.
With every attempt answering 401, `callVeniceAPI` performs 3 attempts,
waiting 1000 ms and 2000 ms between them, before the auth error finally
escapes on the last attempt. -/
theorem c1_auth_is_retried :
    callVeniceAPI (fun _ => Resp.httpErr 401 none "Unauthorized") =
      ⟨3, [1000, 2000], .thrown .authError⟩ ∧
    (callVeniceAPI (fun _ => Resp.httpErr 401 none "Unauthorized")).attempts ≠ 1 := by
  constructor
  · rfl
  · decide

/-- C2: the claim states that with every attempt failing transiently
(4 consecutive 429 responses, attempt cap 3) the controller performs
exactly 3 attempts and then raises the last observed error as a terminal
RateLimitError rather than returning normally.  The attempt count is
right, but the 429 branch (lines 437-444) only waits, increments
`retryCount` and `continue`s, so after the third 429 the `while` guard
fails and the function returns `undefined` normally: no error is ever
raised on this path. -/
theorem c2_exhausted_429_returns_undefined :
    callVeniceAPI (fun _ => Resp.httpErr 429 none "Rate limit exceeded") =
      ⟨3, [1000, 2000, 4000], .returnedUndefined⟩ ∧
    ∀ e, (callVeniceAPI (fun _ => Resp.httpErr 429 none "Rate limit exceeded")).result ≠
      CallResult.thrown e := by
  constructor
  · rfl
  · intro e h
    simp [callVeniceAPI, callLoop, rateLimitWait] at h

/-- C7 (counterexample): the claim states that a server-provided
rate-limit reset hint is honored in choosing the delay.  It is not: the
header is read into `resetTime` (line 438) and never used.  Concretely,
with every 429 response carrying a reset hint of 30000 ms, the waits are
1000, 2000, 4000 ms — identical to a run with no hint at all, and the
first wait is well below the hinted 30000 ms. -/
theorem c7_reset_hint_ignored :
    (callVeniceAPI (fun _ => Resp.httpErr 429 (some 30000) "Rate limit exceeded")).waits =
      [1000, 2000, 4000] ∧
    (callVeniceAPI (fun _ => Resp.httpErr 429 none "Rate limit exceeded")).waits =
      [1000, 2000, 4000] ∧
    (1000 : Nat) < 30000 := by
  refine ⟨rfl, rfl, by decide⟩

/-- C7 (amended): for a 429 response on attempt `r`, the controller waits
`min (2 ^ r * 1000) 60000` ms before the next attempt, whatever reset
hint the response carries. -/
theorem c7_backoff_formula (resps : Nat → Resp) (maxRetries fuel r : Nat)
    (hint : Option Nat) (msg : String)
    (h : resps r = Resp.httpErr 429 hint msg) :
    (callLoop resps maxRetries (fuel + 1) r).waits.head? =
      some (min (2 ^ r * 1000) 60000) := by
  simp [callLoop, h, rateLimitWait]

/-- Witness for `c7_backoff_formula` at a concrete run: attempt 2 of a
stream of hinted 429s waits `min (2 ^ 2 * 1000) 60000 = 4000` ms. -/
theorem c7_backoff_formula_witness :
    (callLoop (fun _ => Resp.httpErr 429 (some 500) "rl") 3 1 2).waits.head? =
      some (min (2 ^ 2 * 1000) 60000) :=
  c7_backoff_formula (fun _ => Resp.httpErr 429 (some 500) "rl") 3 0 2 (some 500) "rl" rfl

/-! ### Conversation claims -/

theorem takeLast_length (n : Nat) (l : List α) :
    (takeLast n l).length = min l.length n := by
  simp only [takeLast, List.length_drop]
  omega

theorem takeLast_of_le (n : Nat) (l : List α) (h : l.length ≤ n) :
    takeLast n l = l := by
  simp [takeLast, Nat.sub_eq_zero_of_le h]

theorem addMessage_maxHistory (c : VeniceConversation) (role content : String) :
    (c.addMessage role content).maxHistory = c.maxHistory := by
  simp only [VeniceConversation.addMessage]
  split <;> rfl

/-- One `addMessage` keeps the "last `n` of everything ever appended"
invariant. -/
theorem addMessage_messages (n : Nat) (hn : 0 < n) (c : VeniceConversation)
    (base : List ChatMessage) (hmax : c.maxHistory = n)
    (hmsg : c.messages = takeLast n base) (role content : String) :
    (c.addMessage role content).messages = takeLast n (base ++ [⟨role, content⟩]) := by
  simp only [VeniceConversation.addMessage, hmax, hmsg]
  by_cases hlt : base.length < n
  · have h1 : takeLast n base = base := takeLast_of_le n base (Nat.le_of_lt hlt)
    have h2 : (base ++ [(⟨role, content⟩ : ChatMessage)]).length ≤ n := by
      simp; omega
    rw [h1, takeLast_of_le n _ h2, if_neg]
    simp; omega
  · push_neg at hlt
    have hlen : (takeLast n base ++ [(⟨role, content⟩ : ChatMessage)]).length = n + 1 := by
      simp [takeLast_length]; omega
    rw [if_pos (by omega)]
    have hne : n ≠ 0 := by omega
    simp only [jsSliceNeg, if_neg hne, hlen, Nat.add_sub_cancel_left]
    have h1 : (1 : Nat) ≤ (takeLast n base).length := by
      rw [takeLast_length]; omega
    rw [List.drop_append_of_le_length h1]
    simp only [takeLast]
    rw [List.drop_drop]
    have h2 : base.length + 1 - n ≤ base.length := by omega
    rw [List.length_append, List.length_singleton,
      List.drop_append_of_le_length h2]
    congr 2
    omega

theorem applyAdds_messages (n : Nat) (hn : 0 < n) :
    ∀ (calls : List (String × String)) (c : VeniceConversation)
      (base : List ChatMessage), c.maxHistory = n → c.messages = takeLast n base →
      (applyAdds c calls).messages =
        takeLast n (base ++ calls.map fun rc => ⟨rc.1, rc.2⟩) := by
  intro calls
  induction calls with
  | nil => intro c base hmax hmsg; simpa [applyAdds] using hmsg
  | cons rc calls ih =>
    intro c base hmax hmsg
    have step := addMessage_messages n hn c base hmax hmsg rc.1 rc.2
    have hmax' : (c.addMessage rc.1 rc.2).maxHistory = n := by
      rw [addMessage_maxHistory, hmax]
    have := ih (c.addMessage rc.1 rc.2) (base ++ [⟨rc.1, rc.2⟩]) hmax' step
    simpa [applyAdds, List.append_assoc] using this

/-- C5: for every conversation built by the constructor and every
sequence of `addMessage` calls, the message list is exactly the most
recent `maxHistory = 20` appended messages in their original order (the
older ones having been dropped from the front), and its length never
exceeds 20. -/
theorem c5_history_bounded (apiKey model : String) (calls : List (String × String)) :
    (applyAdds (mkVeniceConversation apiKey model) calls).messages =
      (calls.map fun rc => ChatMessage.mk rc.1 rc.2).drop (calls.length - 20) ∧
    (applyAdds (mkVeniceConversation apiKey model) calls).messages.length ≤ 20 := by
  have h := applyAdds_messages 20 (by omega) calls (mkVeniceConversation apiKey model) []
    rfl (by simp [mkVeniceConversation, takeLast])
  simp only [List.nil_append] at h
  constructor
  · rw [h]; simp [takeLast]
  · rw [h, takeLast_length]; omega

theorem addMessage_getLast (c : VeniceConversation) (role content : String) :
    (c.addMessage role content).messages.getLast? = some ⟨role, content⟩ := by
  simp only [VeniceConversation.addMessage]
  split
  · simp only [jsSliceNeg]
    split
    · simp
    · rw [List.getLast?_drop, if_neg (by simp; omega)]
      simp
  · simp

/-- C9: `send` appends the user message before issuing the request, so
on every failing outcome (network error, body that fails to parse, or a
parsed body on which `data.choices[0].message.content` is unreachable —
which is what a non-2xx response produces, since `send` never checks
`response.ok`) the conversation afterwards is exactly the conversation
with the user message appended: the user message is retained as the most
recent entry and nothing is rolled back. -/
theorem c9_send_keeps_user_message (c : VeniceConversation) (u : String)
    (out : FetchOutcome) (h : ∀ content, out ≠ .body (some content)) :
    (c.send u out).1 = c.addMessage "user" u ∧
    (c.send u out).1.messages.getLast? = some ⟨"user", u⟩ ∧
    ∃ e, (c.send u out).2 = .error e := by
  cases out with
  | fetchRejects m => exact ⟨rfl, addMessage_getLast c "user" u, ⟨.network m, rfl⟩⟩
  | jsonRejects => exact ⟨rfl, addMessage_getLast c "user" u, ⟨.jsonParse, rfl⟩⟩
  | body content =>
    cases content with
    | none => exact ⟨rfl, addMessage_getLast c "user" u, ⟨.typeError, rfl⟩⟩
    | some content => exact absurd rfl (h content)

/-- Witness for `c9_send_keeps_user_message`: a fresh conversation whose
`send` hits a network failure still holds the user message. -/
theorem c9_send_keeps_user_message_witness :
    ((mkVeniceConversation "key").send "hi" (.fetchRejects "down")).1 =
      (mkVeniceConversation "key").addMessage "user" "hi" ∧
    ((mkVeniceConversation "key").send "hi" (.fetchRejects "down")).1.messages.getLast? =
      some ⟨"user", "hi"⟩ ∧
    ∃ e, ((mkVeniceConversation "key").send "hi" (.fetchRejects "down")).2 = .error e :=
  c9_send_keeps_user_message (mkVeniceConversation "key") "hi" (.fetchRejects "down")
    (fun _ h => FetchOutcome.noConfusion h)

/-! ### Streaming decoder claims -/

/-- Once `streamChatCompletion` has returned, later chunks are never
read: the `done` state absorbs everything. -/
theorem sccRun_done (parse : FrameParse) (chunks : List (List Char)) :
    sccRun parse .done chunks = (.done, []) := by
  induction chunks with
  | nil => rfl
  | cons c cs ih => simp [sccRun, sccChunk, ih]

/-- Splitting the chunk sequence splits the run. -/
theorem sccRun_append (parse : FrameParse) (st : SccState)
    (xs ys : List (List Char)) :
    sccRun parse st (xs ++ ys) =
      ((sccRun parse (sccRun parse st xs).1 ys).1,
       (sccRun parse st xs).2 ++ (sccRun parse (sccRun parse st xs).1 ys).2) := by
  induction xs generalizing st with
  | nil => simp [sccRun]
  | cons c cs ih => simp [sccRun, ih, List.append_assoc]

/-- C3 (amended): in `streamChatCompletion`, once a `[DONE]` frame has
put the decoder in the `done` state, appending any further chunks
changes nothing: no further frame is processed and no delta is emitted
after the terminator.  (The inline `generateResponse` decoder does not
have this property; see the counterexample.) -/
theorem c3_done_stops_stream (parse : FrameParse) (buf : List Char)
    (chunks extra : List (List Char))
    (h : (sccRun parse (.streaming buf) chunks).1 = .done) :
    sccRun parse (.streaming buf) (chunks ++ extra) =
      sccRun parse (.streaming buf) chunks := by
  rw [sccRun_append, h, sccRun_done]
  simp only [List.append_nil]
  exact Prod.ext h.symm rfl

/-- Witness for `c3_done_stops_stream`: after a `[DONE]` chunk the run
over the extended chunk list equals the run over the original one. -/
theorem c3_done_stops_stream_witness :
    sccRun demoParse (.streaming [])
        (["data: [DONE]\n".toList] ++ ["data: A\n".toList]) =
      sccRun demoParse (.streaming []) ["data: [DONE]\n".toList] :=
  c3_done_stops_stream demoParse [] ["data: [DONE]\n".toList] ["data: A\n".toList]
    (by decide)

/-- C3 (counterexample): the claim quantifies over the decoder of every
streaming response, but the inline `generateResponse` decoder reacts to
`[DONE]` with `continue` (line 1281), not `return`: a delta frame
arriving after the terminator is still processed and its delta is still
appended.  Here `[DONE]` is seen (`sawDone`), the stream with nothing
after the terminator renders `''`, yet appending one more frame after
`[DONE]` renders `'Hi'`. -/
theorem c3_counterexample_gen_continues :
    (generateResponse demoParse ["data: [DONE]\n".toList]).sawDone = true ∧
    (generateResponse demoParse ["data: [DONE]\n".toList]).out = "" ∧
    (generateResponse demoParse ["data: [DONE]\ndata: A\n".toList]).sawDone = true ∧
    (generateResponse demoParse ["data: [DONE]\ndata: A\n".toList]).out = "Hi" := by
  refine ⟨rfl, rfl, rfl, rfl⟩

/-- A line that starts with `data: ` does not trim to the empty string:
its first character is `d`. -/
theorem jsTrim_ne_nil_of_dataTag (line : List Char)
    (h : dataTag.isPrefixOf line) : jsTrim line ≠ [] := by
  obtain ⟨t, rfl⟩ := List.isPrefixOf_iff_prefix.mp h
  intro hTrim
  simp only [jsTrim, List.reverse_eq_nil_iff, List.dropWhile_eq_nil_iff] at hTrim
  have hdrop : (dataTag ++ t).dropWhile isJsWS = dataTag ++ t := by
    show List.dropWhile isJsWS ('d' :: (['a', 't', 'a', ':', ' '] ++ t)) = _
    rw [List.dropWhile_cons_of_neg (by decide)]
    rfl
  rw [hdrop] at hTrim
  have := hTrim 'd' (by simp [dataTag])
  exact absurd this (by decide)

/-- A malformed data line (its payload fails to parse) contributes
nothing and does not stop the loop. -/
theorem sccLine_malformed (parse : FrameParse) (bad : List Char)
    (hpre : dataTag.isPrefixOf bad) (hdone : bad.drop 6 ≠ doneTok)
    (hparse : parse (bad.drop 6) = none) :
    sccLine parse bad = ([], false) := by
  rw [sccLine, if_neg (jsTrim_ne_nil_of_dataTag bad hpre), if_neg (by simp [hpre])]
  simp only [if_neg hdone, hparse]

/-- C8: a malformed frame between two valid frames is logged and
discarded on its own: for every surrounding context, the decoding of the
line sequence with the malformed frame equals the decoding without it —
every subsequent valid frame is still decoded, its delta still emitted,
and the stream is not aborted. -/
theorem c8_malformed_frame_survivable (parse : FrameParse) (bad : List Char)
    (hpre : dataTag.isPrefixOf bad) (hdone : bad.drop 6 ≠ doneTok)
    (hparse : parse (bad.drop 6) = none) :
    ∀ pre post : List (List Char),
      sccLines parse (pre ++ bad :: post) = sccLines parse (pre ++ post) := by
  have hbad := sccLine_malformed parse bad hpre hdone hparse
  intro pre
  induction pre with
  | nil =>
    intro post
    simp [sccLines, hbad]
  | cons l pre ih =>
    intro post
    simp only [List.cons_append, sccLines, List.append_eq]
    rw [ih]

/-- Witness for `c8_malformed_frame_survivable`: a garbage frame `data: ?`
between the two valid frames of the spec's example does not stop `llo`
from being emitted after `He`. -/
theorem c8_malformed_frame_survivable_witness :
    sccLines demoParse
        ["data: H".toList, "data: ?".toList, "data: LL".toList] =
      sccLines demoParse ["data: H".toList, "data: LL".toList] :=
  c8_malformed_frame_survivable demoParse "data: ?".toList (by decide) (by decide)
    (by decide) ["data: H".toList] ["data: LL".toList]

/-! ### Input data-URI stripping claims -/

/-- Splitting a list without the separator gives the singleton. -/
theorem jsSplit_eq_singleton (sep : Char) (l : List Char)
    (h : sep ∉ l) : jsSplit sep l = [l] := by
  induction l with
  | nil => rfl
  | cons x xs ih =>
    have hx : x ≠ sep := fun hx => h (hx ▸ List.mem_cons_self x xs)
    have hxs : sep ∉ xs := fun hm => h (List.mem_cons_of_mem x hm)
    simp only [jsSplit, ih hxs]
    rw [if_neg hx]

/-- C10: for every input without a comma, the script.js variant's
`split(',')[1]` is `undefined` while the part_000 variant falls back to
the input unchanged; and whenever the two variants agree on the
submitted payload, the input contains a comma. -/
theorem c10_base64_variants (s : List Char) :
    (',' ∉ s → scriptBase64Data s = none) ∧
    (',' ∉ s → part000Base64Data s = s) ∧
    (∀ t, scriptBase64Data s = some t → part000Base64Data s = t → ',' ∈ s) := by
  refine ⟨?_, ?_, ?_⟩
  · intro h
    simp [scriptBase64Data, jsSplit_eq_singleton ',' s h]
  · intro h
    simp [part000Base64Data, jsSplit_eq_singleton ',' s h]
  · intro t hs _
    by_contra h
    rw [scriptBase64Data, jsSplit_eq_singleton ',' s h] at hs
    simp at hs

/-- Witness for `c10_base64_variants` on `'abc'` (no comma) and, for the
third conjunct, on `'p,q'`. -/
theorem c10_base64_variants_witness :
    scriptBase64Data "abc".toList = none ∧
    part000Base64Data "abc".toList = "abc".toList ∧
    ',' ∈ "p,q".toList := by
  refine ⟨(c10_base64_variants "abc".toList).1 (by decide),
    (c10_base64_variants "abc".toList).2.1 (by decide),
    (c10_base64_variants "p,q".toList).2.2 "q".toList (by decide) (by decide)⟩

/-! ### Image pipeline claims -/

theorem jsTruthy_some (s : String) : jsTruthy (some s) = (s != "") := rfl

/-- C6 (amended): the part_000 `generateStylizedImage` returns a usable
image reference for each documented response shape — binary image
content-type, nested `data[0].url`, nested inline `data[0].b64_json`,
direct `url` field, inline `image` field — and fails with the
"Could not parse image URL from response" error carrying the raw payload
for every ok response matching none of them.  (The script.js variant
does not: see the counterexample.) -/
theorem c6_shape_normalization :
    (∀ resp : ImgResponse, resp.ok = true → ctIncludesImage resp.contentType = true →
      generateStylizedImage resp = .ok .objectUrl) ∧
    (∀ (resp : ImgResponse) (d : ImgDatum) (rest : List ImgDatum) (u : String),
      resp.ok = true → ctIncludesImage resp.contentType = false →
      resp.json.dataField = some (d :: rest) → d.url = some u → u ≠ "" →
      generateStylizedImage resp = .ok (.remoteUrl u)) ∧
    (∀ (resp : ImgResponse) (d : ImgDatum) (rest : List ImgDatum) (b : String),
      resp.ok = true → ctIncludesImage resp.contentType = false →
      resp.json.dataField = some (d :: rest) → jsTruthy d.url = false →
      d.b64Json = some b → b ≠ "" →
      generateStylizedImage resp = .ok (.dataUri b)) ∧
    (∀ (resp : ImgResponse) (u : String),
      resp.ok = true → ctIncludesImage resp.contentType = false →
      resp.json.dataField = none → resp.json.url = some u → u ≠ "" →
      generateStylizedImage resp = .ok (.remoteUrl u)) ∧
    (∀ (resp : ImgResponse) (b : String),
      resp.ok = true → ctIncludesImage resp.contentType = false →
      resp.json.dataField = none → jsTruthy resp.json.url = false →
      resp.json.image = some b → b ≠ "" →
      generateStylizedImage resp = .ok (.dataUri b)) ∧
    (∀ resp : ImgResponse,
      resp.ok = true → ctIncludesImage resp.contentType = false →
      (resp.json.dataField = none ∨
        ∃ d rest, resp.json.dataField = some (d :: rest) ∧
          jsTruthy d.url = false ∧ jsTruthy d.b64Json = false) →
      jsTruthy resp.json.url = false → jsTruthy resp.json.image = false →
      generateStylizedImage resp = .error (.unrecognizedShape resp.json)) := by
  refine ⟨?_, ?_, ?_, ?_, ?_, ?_⟩
  · intro resp hok hct
    simp [generateStylizedImage, hok, normalizeImageResponse, hct]
  · intro resp d rest u hok hct hdf hu hne
    simp [generateStylizedImage, hok, normalizeImageResponse, hct, hdf, hu,
      jsTruthy_some, bne_iff_ne, hne]
  · intro resp d rest b hok hct hdf hu hb hne
    simp [generateStylizedImage, hok, normalizeImageResponse, hct, hdf, hu, hb,
      jsTruthy_some, bne_iff_ne, hne]
  · intro resp u hok hct hdf hu hne
    simp [generateStylizedImage, hok, normalizeImageResponse, hct, hdf, hu,
      jsTruthy_some, bne_iff_ne, hne]
  · intro resp b hok hct hdf hu hb hne
    simp [generateStylizedImage, hok, normalizeImageResponse, hct, hdf, hu, hb,
      jsTruthy_some, bne_iff_ne, hne]
  · intro resp hok hct hdf hu hi
    rcases hdf with hdf | ⟨d, rest, hdf, hdu, hdb⟩
    · simp [generateStylizedImage, hok, normalizeImageResponse, hct, hdf, hu, hi]
    · simp [generateStylizedImage, hok, normalizeImageResponse, hct, hdf, hdu,
        hdb, hu, hi]

/-- Witness for `c6_shape_normalization`: each of the five recognized
shapes on a concrete response, and the unrecognized-shape failure on a
concrete empty body. -/
theorem c6_shape_normalization_witness :
    generateStylizedImage ⟨true, 200, "", some "image/png", ⟨none, none, none⟩⟩ =
      .ok .objectUrl ∧
    generateStylizedImage
        ⟨true, 200, "", none, ⟨some [⟨some "https://img", none⟩], none, none⟩⟩ =
      .ok (.remoteUrl "https://img") ∧
    generateStylizedImage
        ⟨true, 200, "", none, ⟨some [⟨none, some "QUJD"⟩], none, none⟩⟩ =
      .ok (.dataUri "QUJD") ∧
    generateStylizedImage ⟨true, 200, "", none, ⟨none, some "https://direct", none⟩⟩ =
      .ok (.remoteUrl "https://direct") ∧
    generateStylizedImage ⟨true, 200, "", none, ⟨none, none, some "UE5H"⟩⟩ =
      .ok (.dataUri "UE5H") ∧
    generateStylizedImage ⟨true, 200, "", none, ⟨none, none, none⟩⟩ =
      .error (.unrecognizedShape ⟨none, none, none⟩) := by
  refine ⟨c6_shape_normalization.1 _ rfl (by decide),
    c6_shape_normalization.2.1 _ ⟨some "https://img", none⟩ [] "https://img"
      rfl rfl rfl rfl (by decide),
    c6_shape_normalization.2.2.1 _ ⟨none, some "QUJD"⟩ [] "QUJD"
      rfl rfl rfl rfl rfl (by decide),
    c6_shape_normalization.2.2.2.1 _ "https://direct" rfl rfl rfl rfl (by decide),
    c6_shape_normalization.2.2.2.2.1 _ "UE5H" rfl rfl rfl rfl rfl (by decide),
    c6_shape_normalization.2.2.2.2.2 _ rfl rfl (Or.inl rfl) rfl rfl⟩

/-- C6 (counterexample): the claim also covers the script.js variant of
`generateStylizedImage` (its line 96), which recognizes fewer shapes and,
on a response matching none of them, returns the value of the final `||`
operand — `undefined` — instead of failing with an error. -/
theorem c6_counterexample_script_returns_undefined :
    scriptImageResult ⟨none, none, none⟩ = .ok none ∧
    ∀ e, scriptImageResult ⟨none, none, none⟩ ≠ .error e := by
  constructor
  · rfl
  · intro e h
    simp [scriptImageResult, jsTruthy] at h

/-! ### Chunk-split invariance of `streamChatCompletion` -/

theorem jsSplit_ne_nil (sep : Char) (l : List Char) : jsSplit sep l ≠ [] := by
  induction l with
  | nil => simp [jsSplit]
  | cons x xs ih =>
    rcases h : jsSplit sep xs with _ | ⟨r, rs⟩
    · exact absurd h ih
    · simp only [jsSplit, h]
      split <;> simp

theorem mem_jsSplit_not_sep (sep : Char) (l : List Char) :
    ∀ m ∈ jsSplit sep l, sep ∉ m := by
  induction l with
  | nil =>
    intro m hm
    simp [jsSplit] at hm
    simp [hm]
  | cons x xs ih =>
    intro m hm
    rcases h : jsSplit sep xs with _ | ⟨r, rs⟩
    · exact absurd h (jsSplit_ne_nil sep xs)
    · simp only [jsSplit, h] at hm
      by_cases hx : x = sep
      · rw [if_pos hx] at hm
        rcases List.mem_cons.mp hm with rfl | hm'
        · simp
        · exact ih m (h ▸ hm')
      · rw [if_neg hx] at hm
        rcases List.mem_cons.mp hm with rfl | hm'
        · intro hsep
          rcases List.mem_cons.mp hsep with h1 | h1
          · exact hx h1.symm
          · exact ih r (h ▸ List.mem_cons_self r rs) h1
        · exact ih m (h ▸ List.mem_cons_of_mem r hm')

theorem eq_dropLast_append_getLastD (L : List (List Char)) (hL : L ≠ []) :
    L = L.dropLast ++ [L.getLastD []] := by
  rw [List.getLastD_eq_getLast?, List.getLast?_eq_getLast L hL]
  simp only [Option.getD_some]
  exact (List.dropLast_append_getLast hL).symm

/-- Splitting `X ++ Y` is splitting `X`, keeping all but its last
segment, and splitting the last segment glued onto `Y`: exactly the
carry-over-buffer discipline of the decoder. -/
theorem jsSplit_recombine (sep : Char) (Y : List Char) :
    ∀ X : List Char, jsSplit sep (X ++ Y) =
      (jsSplit sep X).dropLast ++
        jsSplit sep ((jsSplit sep X).getLastD [] ++ Y) := by
  intro X
  induction X with
  | nil => simp [jsSplit]
  | cons x X ih =>
    rcases hX : jsSplit sep X with _ | ⟨r, rs⟩
    · exact absurd hX (jsSplit_ne_nil sep X)
    · rw [hX] at ih
      rcases rs with _ | ⟨s, ss⟩
      · simp only [List.dropLast_single, List.getLastD_cons, List.getLastD_nil,
          List.nil_append] at ih
        rcases hq : jsSplit sep (r ++ Y) with _ | ⟨q, qs⟩
        · exact absurd hq (jsSplit_ne_nil sep (r ++ Y))
        · rw [hq] at ih
          by_cases hx : x = sep
          · simp only [List.cons_append, List.append_eq, jsSplit, ih, hX, if_pos hx,
              List.dropLast_cons₂, List.dropLast_single, List.getLastD_cons,
              List.getLastD_nil, hq, List.nil_append]
          · simp only [List.cons_append, List.append_eq, jsSplit, ih, hX, if_neg hx,
              List.dropLast_single, List.getLastD_cons, List.getLastD_nil,
              List.nil_append, hq]
      · simp only [List.dropLast_cons₂, List.getLastD_cons] at ih
        by_cases hx : x = sep
        · simp only [List.cons_append, List.append_eq, jsSplit, ih, hX, if_pos hx,
            List.dropLast_cons₂, List.getLastD_cons]
        · simp only [List.cons_append, List.append_eq, jsSplit, ih, hX, if_neg hx,
            List.dropLast_cons₂, List.getLastD_cons]

theorem getLastD_mem (L : List (List Char)) (hL : L ≠ []) : L.getLastD [] ∈ L := by
  rw [List.getLastD_eq_getLast?, List.getLast?_eq_getLast L hL]
  simp only [Option.getD_some]
  exact List.getLast_mem hL

/-- Line processing distributes over appending line lists, stopping at
the first `[DONE]`. -/
theorem sccLines_append (parse : FrameParse) (X Y : List (List Char)) :
    sccLines parse (X ++ Y) =
      if (sccLines parse X).2 then sccLines parse X
      else ((sccLines parse X).1 ++ (sccLines parse Y).1, (sccLines parse Y).2) := by
  induction X with
  | nil => simp [sccLines]
  | cons l X ih =>
    simp only [List.cons_append, sccLines, List.append_eq]
    rcases hl : sccLine parse l with ⟨es, d⟩
    cases d
    · simp only [ih]
      by_cases hX : (sccLines parse X).2
      · simp [hX]
      · simp [hX, List.append_assoc]
    · simp

/-- The chunk loop with carry-over buffer behaves exactly like splitting
the entire received text at once and processing every complete line (all
but the trailing, possibly incomplete one, which stays in the buffer). -/
theorem sccRun_eq_oneShot (parse : FrameParse) :
    ∀ (chunks : List (List Char)) (buf : List Char), '\n' ∉ buf →
      sccRun parse (.streaming buf) chunks =
        ((if (sccLines parse ((jsSplit '\n' (buf ++ chunks.flatten)).dropLast)).2
            then SccState.done
            else .streaming ((jsSplit '\n' (buf ++ chunks.flatten)).getLastD [])),
         (sccLines parse ((jsSplit '\n' (buf ++ chunks.flatten)).dropLast)).1) := by
  intro chunks
  induction chunks with
  | nil =>
    intro buf hbuf
    rw [show (([] : List (List Char)).flatten) = [] from rfl, List.append_nil,
      jsSplit_eq_singleton '\n' buf hbuf]
    simp [sccRun, sccLines]
  | cons c cs ih =>
    intro buf hbuf
    have hrecomb :
        jsSplit '\n' (buf ++ (c :: cs).flatten) =
          (jsSplit '\n' (buf ++ c)).dropLast ++
            jsSplit '\n' ((jsSplit '\n' (buf ++ c)).getLastD [] ++ cs.flatten) := by
      rw [List.flatten_cons, ← List.append_assoc]
      exact jsSplit_recombine '\n' cs.flatten (buf ++ c)
    have hdl :
        (jsSplit '\n' (buf ++ (c :: cs).flatten)).dropLast =
          (jsSplit '\n' (buf ++ c)).dropLast ++
            (jsSplit '\n' ((jsSplit '\n' (buf ++ c)).getLastD [] ++ cs.flatten)).dropLast := by
      rw [hrecomb, List.dropLast_append_of_ne_nil _ (jsSplit_ne_nil _ _)]
    have hlines := sccLines_append parse
      (jsSplit '\n' (buf ++ c)).dropLast
      (jsSplit '\n' ((jsSplit '\n' (buf ++ c)).getLastD [] ++ cs.flatten)).dropLast
    by_cases hdone : (sccLines parse ((jsSplit '\n' (buf ++ c)).dropLast)).2
    · rw [if_pos hdone] at hlines
      simp only [sccRun, sccChunk, if_pos hdone, sccRun_done, hdl, hlines]
      simp [hdone]
    · rw [if_neg hdone] at hlines
      have hnb : '\n' ∉ (jsSplit '\n' (buf ++ c)).getLastD [] :=
        mem_jsSplit_not_sep '\n' (buf ++ c) _
          (getLastD_mem _ (jsSplit_ne_nil '\n' (buf ++ c)))
      have hih := ih ((jsSplit '\n' (buf ++ c)).getLastD []) hnb
      simp only [sccRun, sccChunk, if_neg hdone, hih, hdl, hlines]
      by_cases hdone2 :
          (sccLines parse
            ((jsSplit '\n' ((jsSplit '\n' (buf ++ c)).getLastD [] ++ cs.flatten)).dropLast)).2
      · simp only [hdone2, if_true]
      · simp only [hdone2, if_false]
        have hlast :
            (jsSplit '\n' (buf ++ (c :: cs).flatten)).getLastD [] =
              (jsSplit '\n' ((jsSplit '\n' (buf ++ c)).getLastD [] ++ cs.flatten)).getLastD [] := by
          rw [hrecomb, List.getLastD_eq_getLast?,
            List.getLast?_append_of_ne_nil _ (jsSplit_ne_nil _ _),
            ← List.getLastD_eq_getLast?]
        rw [hlast]

theorem jsSplit_append_sep (sep : Char) (Y : List Char) :
    ∀ X : List Char, sep ∉ X → jsSplit sep (X ++ sep :: Y) = X :: jsSplit sep Y := by
  intro X
  induction X with
  | nil =>
    intro _
    rcases h : jsSplit sep Y with _ | ⟨r, rs⟩
    · exact absurd h (jsSplit_ne_nil sep Y)
    · simp [jsSplit, h]
  | cons x X ih =>
    intro hX
    have hx : x ≠ sep := fun he => hX (he ▸ List.mem_cons_self x X)
    have hX' : sep ∉ X := fun hm => hX (List.mem_cons_of_mem x hm)
    rcases h : jsSplit sep (X ++ sep :: Y) with _ | ⟨r, rs⟩
    · exact absurd h (jsSplit_ne_nil _ _)
    · have heq := ih hX'
      rw [h] at heq
      injection heq with h1 h2
      simp only [List.cons_append, List.append_eq, jsSplit, h, if_neg hx, h1, h2]

theorem jsSplit_frameText (payloads : List (List Char))
    (hp : ∀ p ∈ payloads, '\n' ∉ p) :
    jsSplit '\n' (frameText payloads) =
      (payloads.map fun p => dataTag ++ p) ++ [[]] := by
  induction payloads with
  | nil => rfl
  | cons p ps ih =>
    have hdp : '\n' ∉ dataTag ++ p := by
      intro hm
      rcases List.mem_append.mp hm with h1 | h1
      · simp [dataTag] at h1
      · exact hp p (List.mem_cons_self p ps) h1
    have hshape : frameText (p :: ps) = (dataTag ++ p) ++ '\n' :: frameText ps := by
      simp [frameText, List.append_assoc]
    rw [hshape, jsSplit_append_sep '\n' (frameText ps) (dataTag ++ p) hdp,
      ih fun q hq => hp q (List.mem_cons_of_mem p hq)]
    simp

theorem sccLine_data (parse : FrameParse) (p : List Char) (hne : p ≠ doneTok) :
    sccLine parse (dataTag ++ p) = (emitList (parse p), false) := by
  have hpre : dataTag.isPrefixOf (dataTag ++ p) :=
    List.isPrefixOf_iff_prefix.mpr (List.prefix_append dataTag p)
  have hdrop : List.drop 6 (dataTag ++ p) = p := List.drop_left dataTag p
  rw [sccLine, if_neg (jsTrim_ne_nil_of_dataTag _ hpre), if_neg (by simp [hpre])]
  simp only [hdrop, if_neg hne]
  cases h : parse p with
  | none => rfl
  | some content => cases content <;> rfl

theorem sccLines_frames (parse : FrameParse) :
    ∀ payloads : List (List Char), (∀ p ∈ payloads, p ≠ doneTok) →
      sccLines parse (payloads.map fun p => dataTag ++ p) =
        (payloads.flatMap fun p => emitList (parse p), false) := by
  intro payloads
  induction payloads with
  | nil => intro _; rfl
  | cons p ps ih =>
    intro h
    simp only [List.map_cons, sccLines,
      sccLine_data parse p (h p (List.mem_cons_self p ps)),
      ih fun q hq => h q (List.mem_cons_of_mem p hq), List.flatMap_cons]

theorem join_append (a b : List String) :
    String.join (a ++ b) = String.join a ++ String.join b := by
  simp [String.join_eq]
  rfl

theorem join_emitList (v : Option (Option String)) :
    String.join (emitList v) = contentOf v := by
  rcases v with _ | _ | c
  · rfl
  · rfl
  · simp only [emitList, contentOf]
    by_cases hc : c = ""
    · simp [hc, String.join_eq]
    · simp [hc, String.join_eq]

theorem join_emit (parse : FrameParse) (payloads : List (List Char)) :
    String.join (payloads.flatMap fun p => emitList (parse p)) =
      String.join (payloads.map fun p => contentOf (parse p)) := by
  induction payloads with
  | nil => rfl
  | cons p ps ih =>
    rw [List.flatMap_cons, List.map_cons, join_append, ih,
      show (contentOf (parse p) :: ps.map fun p => contentOf (parse p)) =
        [contentOf (parse p)] ++ ps.map fun p => contentOf (parse p) from rfl,
      join_append, join_emitList]
    congr 1

/-- C4 (amended): for `streamChatCompletion` the claim holds.  First,
for every way of splitting a response into chunks, the emitted deltas
are exactly those of the complete lines of the concatenated text — the
trailing (possibly incomplete) line is held back in the buffer and never
decoded, so chunk boundaries are invisible.  Second, when the received
text is a well-formed frame sequence (no payload holds a newline or the
terminator, and none is malformed), the concatenation of all emitted
deltas is the full assistant message.  (The inline `generateResponse`
decoder has no carry-over buffer and lacks this property; see the
counterexample.) -/
theorem c4_chunking_invariant :
    (∀ (parse : FrameParse) (chunks : List (List Char)),
      (streamChatCompletion parse chunks).2 =
        (sccLines parse ((jsSplit '\n' chunks.flatten).dropLast)).1) ∧
    (∀ (parse : FrameParse) (payloads chunks : List (List Char)),
      chunks.flatten = frameText payloads →
      (∀ p ∈ payloads, '\n' ∉ p ∧ p ≠ doneTok ∧ ∃ d, parse p = some d) →
      String.join ((streamChatCompletion parse chunks).2) =
        String.join (payloads.map fun p => contentOf (parse p))) := by
  have hA : ∀ (parse : FrameParse) (chunks : List (List Char)),
      (streamChatCompletion parse chunks).2 =
        (sccLines parse ((jsSplit '\n' chunks.flatten).dropLast)).1 := by
    intro parse chunks
    rw [streamChatCompletion, sccRun_eq_oneShot parse chunks [] (by simp)]
    rw [List.nil_append]
  refine ⟨hA, ?_⟩
  intro parse payloads chunks hflat hwf
  rw [hA, hflat, jsSplit_frameText payloads fun p hp => (hwf p hp).1,
    List.dropLast_concat,
    sccLines_frames parse payloads fun p hp => (hwf p hp).2.1,
    join_emit]

/-- Witness for `c4_chunking_invariant`: the spec's two-frame example
split in the middle of the second frame's line; the deltas still
concatenate to the full message `He ++ llo`. -/
theorem c4_chunking_invariant_witness :
    (streamChatCompletion demoParse ["data: H\nda".toList, "ta: LL\n".toList]).2 =
      (sccLines demoParse
        ((jsSplit '\n' (["data: H\nda".toList, "ta: LL\n".toList].flatten)).dropLast)).1 ∧
    String.join
        ((streamChatCompletion demoParse ["data: H\nda".toList, "ta: LL\n".toList]).2) =
      String.join ([['H'], ['L', 'L']].map fun p => contentOf (demoParse p)) := by
  refine ⟨c4_chunking_invariant.1 demoParse _,
    c4_chunking_invariant.2 demoParse [['H'], ['L', 'L']] _ (by decide) ?_⟩
  intro p hp
  rcases List.mem_cons.mp hp with rfl | hp
  · exact ⟨by decide, by decide, ⟨some "He", rfl⟩⟩
  · rcases List.mem_cons.mp hp with rfl | hp
    · exact ⟨by decide, by decide, ⟨some "llo", rfl⟩⟩
    · simp at hp

/-- C4 (counterexample): the claim also covers the inline
`generateResponse` decoder, which splits each chunk independently with
no carry-over buffer.  The same byte stream — one well-formed frame
`data: XY`, no frame malformed — split in the middle of the line makes
`generateResponse` render `''` while the buffered decoder emits the full
message `Hello`. -/
theorem c4_counterexample_gen_no_buffer :
    ["data: X".toList, "Y\n".toList].flatten = frameText [['X', 'Y']] ∧
    (∃ d, demoParse ['X', 'Y'] = some d) ∧
    (streamChatCompletion demoParse ["data: X".toList, "Y\n".toList]).2 = ["Hello"] ∧
    (generateResponse demoParse ["data: X".toList, "Y\n".toList]).out = "" ∧
    ("" : String) ≠ "Hello" := by
  exact ⟨by decide, ⟨some "Hello", rfl⟩, rfl, rfl, by decide⟩
